import Mathlib

/-!
Verification of the RAG core of the `projeto-tcc` repository against its
natural-language specification.

The development shallowly embeds the Python code of
`server/src/services/document_processor.py`, `server/src/services/vector_store.py`
and `server/src/services/ai_service.py`:

* strings are `List Char`; Python indexing and slicing (negative indices,
  clamping, `IndexError`) are modelled explicitly;
* the `while` loop of `DocumentProcessor.chunk_text` is fuel-indexed, since
  the source loop can diverge: `none` means the fuel ran out, `some (.error _)`
  an uncaught `IndexError`, `some (.ok l)` a normal return;
* Python dicts are association lists with the insertion/override semantics of
  `{**a, **b}` made explicit;
* the filesystem and the extractor calls of `process_document` are oracles
  (the file's existence, suffix, stat facts, and the extraction outcome are
  inputs), since the extractors do I/O;
* the ChromaDB client of `vector_store.py` is an abstract store mapping
  collection names to lists of inserted records; `collection.query` is
  modelled as returning up to `n_results` records of that collection (the
  similarity ranking itself lives in the external library).
-/

set_option maxHeartbeats 1600000

deriving instance DecidableEq for Except

namespace TCC

/-- Characters removed by Python's `str.strip()` (ASCII whitespace). -/
def isPySpace (c : Char) : Bool :=
  c = ' ' || c = '\t' || c = '\n' || c = '\r' || c = '\x0b' || c = '\x0c'

/-- Python `s.strip()`: drop whitespace from both ends. -/
def pyStrip (s : List Char) : List Char :=
  ((s.dropWhile isPySpace).reverse.dropWhile isPySpace).reverse

/-- Python single-index access `s[i]`: a negative index counts from the end;
an out-of-range index raises `IndexError`, modelled as `none`. -/
def pyIdx (s : List Char) (i : Int) : Option Char :=
  let j : Int := if i < 0 then (s.length : Int) + i else i
  if 0 ≤ j ∧ j < (s.length : Int) then s.get? j.toNat else none

/-- Python slice `s[a:b]`: negative indices count from the end, then both
bounds are clamped to `[0, len]`. -/
def pySlice (s : List Char) (a b : Int) : List Char :=
  let n : Int := (s.length : Int)
  let a' : Nat := (if a < 0 then max (n + a) 0 else min a n).toNat
  let b' : Nat := (if b < 0 then max (n + b) 0 else min b n).toNat
  (s.take b').drop a'

/-- The character set of the literal `'.!?\\n'` in
`DocumentProcessor.chunk_text` (line 68): dot, exclamation mark, question
mark, backslash and the letter `n` — the source escapes the backslash, so a
newline character is not in the set. -/
def terminators : List Char := ['.', '!', '?', '\\', 'n']

/-- The body of `for i in range(i0, lo, -1): if text[i] in '.!?\\n': ...`,
running `k = i0 - lo` iterations downwards from `i`: the first index (from
the top) holding a terminator, `.error ()` on `IndexError`. -/
def scanBackAux (text : List Char) : Nat → Int → Except Unit (Option Int)
  | 0, _ => .ok none
  | k + 1, i =>
    match pyIdx text i with
    | none => .error ()
    | some c => if c ∈ terminators then .ok (some i) else scanBackAux text k (i - 1)

/-- The scan `for i in range(hi, lo, -1)` of `chunk_text` lines 67-70. -/
def scanBack (text : List Char) (hi lo : Int) : Except Unit (Option Int) :=
  scanBackAux text (hi - lo).toNat hi

/-- Lines 62-70 of `chunk_text`: the cut position `end` for the window
starting at `start` — the raw offset `start + chunk_size`, moved to just
past a terminator found by the backward scan when the window does not reach
the end of the text. -/
def cutEnd (text : List Char) (cs start : Int) : Except Unit Int :=
  let end0 := start + cs
  if end0 < (text.length : Int) then
    match scanBack text end0 (max (start + cs - 100) start) with
    | .error e => .error e
    | .ok (some i) => .ok (i + 1)
    | .ok none => .ok end0
  else .ok end0

/-- One iteration of the `while start < len(text)` body of `chunk_text`
(lines 62-80) at position `start`: the new `start` and the chunk this
iteration appends (`none` when the stripped chunk is empty and is dropped),
or an uncaught `IndexError` from the backward scan. -/
def chunkIter (text : List Char) (cs ov start : Int) :
    Except Unit (Int × Option (List Char)) :=
  match cutEnd text cs start with
  | .error e => .error e
  | .ok endF =>
    let chunk := pyStrip (pySlice text start endF)
    let start1 := endF - ov
    let start2 := if start1 ≥ endF then endF else start1
    .ok (start2, if chunk = [] then none else some chunk)

/-- The `while` loop of `chunk_text` (lines 61-82), fuel-indexed: `none`
means the fuel ran out (the source loop can in fact diverge),
`some (.error _)` an `IndexError`, `some (.ok l)` a normal return with the
accumulated chunk list. -/
def chunkLoop (text : List Char) (cs ov : Int) :
    Nat → Int → List (List Char) → Option (Except Unit (List (List Char)))
  | 0, start, chunks =>
    if start < (text.length : Int) then none else some (.ok chunks)
  | fuel + 1, start, chunks =>
    if start < (text.length : Int) then
      match chunkIter text cs ov start with
      | .error e => some (.error e)
      | .ok (start', none) => chunkLoop text cs ov fuel start' chunks
      | .ok (start', some c) => chunkLoop text cs ov fuel start' (chunks ++ [c])
    else some (.ok chunks)

/-- `DocumentProcessor.chunk_text(text, chunk_size, overlap)`
(lines 38-82): the short-text fast path returns `[text]` unmodified,
otherwise the fuel-indexed loop runs from `start = 0`. -/
def chunk_text (text : List Char) (cs ov : Int) (fuel : Nat) :
    Option (Except Unit (List (List Char))) :=
  if (text.length : Int) ≤ cs then some (.ok [text])
  else chunkLoop text cs ov fuel 0 []

/-- C4: for every text, chunk size and overlap with `len(text) <= chunk_size`,
`chunk_text` returns exactly the one-element list holding the whole text,
unmodified (in particular not stripped). -/
theorem chunk_text_short_is_singleton (text : List Char) (cs ov : Int) (fuel : Nat)
    (h : (text.length : Int) ≤ cs) :
    chunk_text text cs ov fuel = some (.ok [text]) := by
  simp [chunk_text, h]

/-- Witness for C4 at `text = "  ab "`, `chunk_size = 7`, `overlap = 2`:
the text is returned whole, whitespace included. -/
theorem chunk_text_short_is_singleton_witness :
    (("  ab ".toList.length : Int) ≤ 7) ∧
      chunk_text "  ab ".toList 7 2 0 = some (.ok ["  ab ".toList]) :=
  ⟨by decide, chunk_text_short_is_singleton "  ab ".toList 7 2 0 (by decide)⟩

/-- C1 (divergence of the boundary policy from the source): the membership
test on line 68 is against the literal `'.!?\\n'`, whose characters are
`.` `!` `?` `\` `n` — not a newline.  At `text = "ab\ncdefgh"`,
`chunk_size = 5`, `overlap = 1`, a newline sits at index 2, inside the
lookback window of the first cut, yet the first chunk is `"ab\ncd"` (cut at
the raw offset, the newline ignored); and at `text = "abncdefgh"` the plain
letter `n` at index 2 is taken for a terminator, giving first chunk
`"abn"`. -/
theorem chunk_text_newline_not_honoured :
    ("ab\ncdefgh".toList.get? 2 = some '\n' ∧
      chunk_text "ab\ncdefgh".toList 5 1 10 =
        some (.ok ["ab\ncd".toList, "defgh".toList, "h".toList])) ∧
    ("abncdefgh".toList.get? 2 = some 'n' ∧
      chunk_text "abncdefgh".toList 5 1 10 =
        some (.ok ["abn".toList, "ncdef".toList, "fgh".toList])) := by
  decide

/-- The text `"ab.cdefghijkABCDEFGHI"` (21 characters): with
`chunk_size = 10`, `overlap = 3` the loop of `chunk_text` returns to
`start = 0` on every iteration (the backward scan always cuts right after
the dot at index 2, and `start = 3 - 3 = 0` again), so it never
terminates. -/
def loopText : List Char := "ab.cdefghijkABCDEFGHI".toList

theorem chunkIter_loopText :
    chunkIter loopText 10 3 0 = .ok (0, some "ab.".toList) := by
  decide

theorem chunkLoop_loopText_none :
    ∀ (fuel : Nat) (chunks : List (List Char)),
      chunkLoop loopText 10 3 fuel 0 chunks = none := by
  intro fuel
  induction fuel with
  | zero =>
    intro chunks
    have h : (0 : Int) < (loopText.length : Int) := by decide
    simp [chunkLoop, h]
  | succ f ih =>
    intro chunks
    have h : (0 : Int) < (loopText.length : Int) := by decide
    simp only [chunkLoop, h, if_true, chunkIter_loopText]
    exact ih (chunks ++ ["ab.".toList])

/-- C2 (the loop does not always terminate): at
`text = "ab.cdefghijkABCDEFGHI"`, `chunk_size = 10`, `overlap = 3` — inputs
satisfying `len(text) > chunk_size` and `0 <= overlap < chunk_size` — the
while-loop of `chunk_text` runs forever: for every fuel bound the
fuel-indexed loop is still running (`none`). -/
theorem chunk_text_diverges :
    (10 : Int) < (loopText.length : Int) ∧ (0 : Int) ≤ 3 ∧ (3 : Int) < 10 ∧
      ∀ fuel : Nat, chunk_text loopText 10 3 fuel = none := by
  refine ⟨by decide, by decide, by decide, fun fuel => ?_⟩
  have h : ¬ ((loopText.length : Int) ≤ 10) := by decide
  simp [chunk_text, h, chunkLoop_loopText_none]

/-- C3 counterexample: at `text = "abcde.gh"`, `chunk_size = 5`,
`overlap = 1` — inputs satisfying `len(text) > chunk_size` and
`0 <= overlap < chunk_size` — the first returned chunk, `"abcde."`, has
length `6 > chunk_size`: the backward scan starts at the raw offset itself
(`range(end, ..., -1)` begins at `i = end`), so a terminator sitting exactly
at the raw offset pushes the cut one character past `chunk_size`. -/
theorem chunk_text_chunk_exceeds_chunk_size :
    (5 : Int) < ("abcde.gh".toList.length : Int) ∧ (0 : Int) ≤ 1 ∧ (1 : Int) < 5 ∧
      chunk_text "abcde.gh".toList 5 1 10 =
        some (.ok ["abcde.".toList, ".gh".toList]) ∧
      5 < ("abcde.".toList.length : Int) := by
  decide

theorem pyStrip_length_le (s : List Char) : (pyStrip s).length ≤ s.length := by
  unfold pyStrip
  rw [List.length_reverse]
  refine le_trans (List.dropWhile_sublist _).length_le ?_
  rw [List.length_reverse]
  exact (List.dropWhile_sublist _).length_le

theorem pySlice_length_le (s : List Char) (a b : Int) (hab : a ≤ b) :
    ((pySlice s a b).length : Int) ≤ b - a := by
  simp only [pySlice, List.length_drop, List.length_take]
  split_ifs <;> omega

theorem scanBackAux_bounds {text : List Char} :
    ∀ {k : Nat} {i j : Int}, scanBackAux text k i = .ok (some j) → j ≤ i ∧ i - k < j := by
  intro k
  induction k with
  | zero => intro i j h; simp [scanBackAux] at h
  | succ k ih =>
    intro i j h
    unfold scanBackAux at h
    cases hx : pyIdx text i with
    | none => rw [hx] at h; exact absurd h (by simp)
    | some c =>
      rw [hx] at h
      by_cases hc : c ∈ terminators
      · have hij : i = j := by simpa [hc] using h
        omega
      · have := ih (show scanBackAux text k (i - 1) = .ok (some j) by simpa [hc] using h)
        omega

theorem cutEnd_bounds {text : List Char} {cs start endF : Int}
    (hcs : 0 < cs) (h : cutEnd text cs start = .ok endF) :
    start ≤ endF ∧ endF ≤ start + cs + 1 := by
  simp only [cutEnd] at h
  split at h
  · split at h
    · exact absurd h (by simp)
    · rename_i i heq
      have hb := scanBackAux_bounds heq
      have hendF : endF = i + 1 := by simpa using h.symm
      have hlo : start ≤ max (start + cs - 100) start := le_max_right _ _
      have hhi : max (start + cs - 100) start ≤ start + cs := by omega
      rcases hb with ⟨h1, h2⟩
      omega
    · have hendF : endF = start + cs := by simpa using h.symm
      omega
  · have hendF : endF = start + cs := by simpa using h.symm
    omega

theorem chunkIter_chunk_length {text : List Char} {cs ov start s' : Int} {c : List Char}
    (hcs : 0 < cs) (h : chunkIter text cs ov start = .ok (s', some c)) :
    (c.length : Int) ≤ cs + 1 := by
  unfold chunkIter at h
  cases hce : cutEnd text cs start with
  | error e => rw [hce] at h; exact absurd h (by simp)
  | ok endF =>
    rw [hce] at h
    simp only [Except.ok.injEq, Prod.mk.injEq] at h
    obtain ⟨-, h2⟩ := h
    by_cases hemp : pyStrip (pySlice text start endF) = []
    · rw [if_pos hemp] at h2; cases h2
    · rw [if_neg hemp] at h2
      have hc' : c = pyStrip (pySlice text start endF) := by
        simpa using h2.symm
      obtain ⟨h1, hub⟩ := cutEnd_bounds hcs hce
      have hstrip : ((pyStrip (pySlice text start endF)).length : Int)
          ≤ ((pySlice text start endF).length : Int) := by
        exact_mod_cast pyStrip_length_le (pySlice text start endF)
      have hslice := pySlice_length_le text start endF h1
      rw [hc']
      omega

theorem chunkLoop_chunk_length {text : List Char} {cs ov : Int} (hcs : 0 < cs) :
    ∀ (fuel : Nat) (start : Int) (acc res : List (List Char)),
      (∀ c ∈ acc, (c.length : Int) ≤ cs + 1) →
      chunkLoop text cs ov fuel start acc = some (.ok res) →
      ∀ c ∈ res, (c.length : Int) ≤ cs + 1 := by
  intro fuel
  induction fuel with
  | zero =>
    intro start acc res hacc h
    unfold chunkLoop at h
    split at h
    · exact absurd h (by simp)
    · have : acc = res := by simpa using h
      exact this ▸ hacc
  | succ f ih =>
    intro start acc res hacc h
    unfold chunkLoop at h
    split at h
    · cases hit : chunkIter text cs ov start with
      | error e => rw [hit] at h; exact absurd h (by simp)
      | ok p =>
        obtain ⟨s', copt⟩ := p
        rw [hit] at h
        cases copt with
        | none => exact ih s' acc res hacc h
        | some c =>
          refine ih s' (acc ++ [c]) res ?_ h
          intro x hx
          rcases List.mem_append.mp hx with hx | hx
          · exact hacc x hx
          · have : x = c := by simpa using hx
            exact this ▸ chunkIter_chunk_length hcs hit
    · have : acc = res := by simpa using h
      exact this ▸ hacc

/-- C3 amended: for every text with `len(text) > chunk_size` and every
overlap with `0 <= overlap < chunk_size`, every chunk of a terminating run
of `chunk_text` has length at most `chunk_size + 1` (not `chunk_size`: the
backward scan may cut one character past the raw offset). -/
theorem chunk_text_chunk_length_le (text : List Char) (cs ov : Int) (fuel : Nat)
    (res : List (List Char))
    (hlen : cs < (text.length : Int)) (hov0 : 0 ≤ ov) (hov : ov < cs)
    (h : chunk_text text cs ov fuel = some (.ok res)) :
    ∀ c ∈ res, (c.length : Int) ≤ cs + 1 := by
  have hcs : 0 < cs := lt_of_le_of_lt hov0 hov
  unfold chunk_text at h
  rw [if_neg (by omega)] at h
  exact chunkLoop_chunk_length hcs fuel 0 [] res (by simp) h

/-- Witness for C3 (amended) at `text = "abcde.gh"`, `chunk_size = 5`,
`overlap = 1`: both returned chunks have length at most 6. -/
theorem chunk_text_chunk_length_le_witness :
    ((5 : Int) < ("abcde.gh".toList.length : Int)) ∧ ((0 : Int) ≤ 1) ∧ ((1 : Int) < 5) ∧
      ∀ c ∈ ["abcde.".toList, ".gh".toList], (c.length : Int) ≤ 5 + 1 :=
  ⟨by decide, by decide, by decide,
    chunk_text_chunk_length_le "abcde.gh".toList 5 1 10 ["abcde.".toList, ".gh".toList]
      (by decide) (by decide) (by decide) (by decide)⟩

/-! ## Python dicts

`DocumentProcessorService.process_document` builds the dict literal
`{'file_name': ..., ..., **(metadata or {})}`.  Dicts are modelled as
association lists with the Python override semantics (a repeated key keeps
its position and takes the new value); lookups follow the first (hence
unique) occurrence of a key. -/

/-- Metadata values: the file-derived facts are strings and integers. -/
inductive PyV where
  | s (v : String)
  | n (v : Int)
deriving DecidableEq

/-- `d[k] = v` on a Python dict: replace in place when the key is present,
append otherwise. -/
def pyDictInsert (d : List (String × PyV)) (k : String) (v : PyV) :
    List (String × PyV) :=
  if d.any (fun p => p.1 = k) then
    d.map (fun p => if p.1 = k then (k, v) else p)
  else d ++ [(k, v)]

/-- The dict literal `{**a, **b}`: start from `a`, write every entry of `b`
over it in order. -/
def pyDictUpdate (a b : List (String × PyV)) : List (String × PyV) :=
  b.foldl (fun d p => pyDictInsert d p.1 p.2) a

/-- Dict lookup. -/
def pyDictGet (d : List (String × PyV)) (k : String) : Option PyV :=
  (d.find? (fun p => p.1 = k)).map Prod.snd

/-- `len(text.split())`: the number of maximal whitespace-free runs, which
is the length of Python's argument-less `str.split()`. -/
def countWordsAux : Bool → List Char → Nat
  | _, [] => 0
  | inWord, c :: rest =>
    if isPySpace c then countWordsAux false rest
    else (if inWord then 0 else 1) + countWordsAux true rest

/-- `word_count` of line 271: `len(extracted_text.split())`. -/
def wordCount (s : List Char) : Nat := countWordsAux false s

/-! ## The ingestion pipeline (`DocumentProcessorService`)

The filesystem facts of the input file and the outcome of the (I/O-bound)
extractor call are oracles passed as arguments. -/

/-- The facts `process_document` reads from its input path: existence,
`str(file_path)`, `.name`, `.suffix`, `stat().st_size`,
`str(Path.ctime(file_path))`. -/
structure PFile where
  present : Bool
  path : String
  name : String
  suffix : String
  size : Int
  ctime : String
deriving DecidableEq

/-- `file_path.suffix.lower().lstrip('.')` (line 223 and line 270). -/
def extOf (suffix : String) : String :=
  ((suffix.toList.map Char.toLower).dropWhile (fun c => c = '.')).asString

/-- The registered processors (lines 214-219). -/
inductive ProcKind where
  | pdf | docx | txt | md
deriving DecidableEq

/-- `DocumentProcessorService.get_processor_for_file` (lines 221-229):
first processor, in registration order, whose supported extensions contain
the file's lower-cased, dot-stripped extension (`pdf` / `docx` / `txt` /
`md`,`markdown`). -/
def get_processor_for_file (suffix : String) : Option ProcKind :=
  let ext := extOf suffix
  if ext ∈ ["pdf"] then some .pdf
  else if ext ∈ ["docx"] then some .docx
  else if ext ∈ ["txt"] then some .txt
  else if ext ∈ ["md", "markdown"] then some .md
  else none

/-- The record `process_document` returns (lines 277-282 / 293-299). -/
structure ProcResult where
  text : List Char
  chunks : List (List Char)
  metadata : List (String × PyV)
  success : Bool
  error : Option String
deriving DecidableEq

/-- The `file_metadata` dict literal of lines 267-275, before the caller
overlay `**(metadata or {})`. -/
def file_metadata (f : PFile) (extracted : List Char)
    (chunks : List (List Char)) : List (String × PyV) :=
  [("file_name", .s f.name),
   ("file_size", .n f.size),
   ("file_type", .s (extOf f.suffix)),
   ("word_count", .n (wordCount extracted : Int)),
   ("chunk_count", .n (chunks.length : Int)),
   ("processed_at", .s f.ctime)]

/-- The try-block of `process_document` (lines 246-289). `Except.error` is
a raised exception (carrying `str(e)`); the outer `Option` is `none` when
the chunking loop diverges.  An `IndexError` escaping the backward scan of
`chunk_text` carries Python's standard message. -/
def procBody (f : PFile) (extraction : Except String (List Char))
    (metadata : Option (List (String × PyV))) (cs ov : Int) (fuel : Nat) :
    Option (Except String ProcResult) :=
  if f.present = false then
    some (.error ("Arquivo não encontrado: " ++ f.path))
  else
    match get_processor_for_file f.suffix with
    | none => some (.error ("Tipo de arquivo não suportado: " ++ f.suffix))
    | some _ =>
      match extraction with
      | .error e => some (.error e)
      | .ok extracted =>
        if pyStrip extracted = [] then
          some (.error "Nenhum texto extraído do documento")
        else
          match chunk_text extracted cs ov fuel with
          | none => none
          | some (.error _) => some (.error "string index out of range")
          | some (.ok chunks) =>
            some (.ok
              { text := extracted
                chunks := chunks
                metadata := pyDictUpdate (file_metadata f extracted chunks)
                  (metadata.getD [])
                success := true
                error := none })

/-- The failure record of lines 293-299. -/
def failureRecord (metadata : Option (List (String × PyV))) (msg : String) :
    ProcResult :=
  { text := []
    chunks := []
    metadata := metadata.getD []
    success := false
    error := some msg }

/-- `DocumentProcessorService.process_document` (lines 231-299): the
try-block with every raised exception converted to the failure record. -/
def process_document (f : PFile) (extraction : Except String (List Char))
    (metadata : Option (List (String × PyV))) (cs ov : Int) (fuel : Nat) :
    Option ProcResult :=
  (procBody f extraction metadata cs ov fuel).map
    (fun r => match r with
      | .ok res => res
      | .error msg => failureRecord metadata msg)

theorem find?_map_replace (k : String) (v : PyV) (d : List (String × PyV)) :
    (d.map (fun p => if p.1 = k then (k, v) else p)).find? (fun p => p.1 = k) =
      if d.any (fun p => p.1 = k) then some (k, v) else none := by
  induction d with
  | nil => simp
  | cons p d ih =>
    simp only [List.map_cons, List.any_cons]
    by_cases hp : p.1 = k
    · rw [if_pos hp, List.find?_cons_of_pos _ (by simp)]
      have hd : decide (p.1 = k) = true := by simpa using hp
      simp [hd]
    · rw [if_neg hp, List.find?_cons_of_neg _ (by simpa using hp), ih]
      have hd : decide (p.1 = k) = false := by simpa using hp
      simp only [hd, Bool.false_or]

theorem find?_map_replace_other {k k' : String} (v : PyV) (hk : k' ≠ k)
    (d : List (String × PyV)) :
    (d.map (fun p => if p.1 = k then (k, v) else p)).find? (fun p => p.1 = k') =
      d.find? (fun p => p.1 = k') := by
  have hkk : ¬ (k = k') := fun h => hk h.symm
  induction d with
  | nil => simp
  | cons p d ih =>
    simp only [List.map_cons]
    by_cases hp : p.1 = k
    · have hpk' : ¬ p.1 = k' := by rw [hp]; exact hkk
      rw [if_pos hp, List.find?_cons_of_neg _ (by simpa using hkk),
        List.find?_cons_of_neg _ (by simpa using hpk')]
      exact ih
    · rw [if_neg hp]
      by_cases hp' : p.1 = k'
      · rw [List.find?_cons_of_pos _ (by simpa using hp'),
          List.find?_cons_of_pos _ (by simpa using hp')]
      · rw [List.find?_cons_of_neg _ (by simpa using hp'),
          List.find?_cons_of_neg _ (by simpa using hp')]
        exact ih

theorem pyDictGet_eq_none_of_not_any {d : List (String × PyV)} {k : String}
    (h : ¬ (d.any (fun p => p.1 = k) = true)) : pyDictGet d k = none := by
  unfold pyDictGet
  have hf : d.find? (fun p => p.1 = k) = none := by
    rw [List.find?_eq_none]
    intro x hx
    simp only [List.any_eq_true, decide_eq_true_eq] at h
    simp only [decide_eq_true_eq]
    exact fun hxk => h ⟨x, hx, hxk⟩
  rw [hf]
  rfl

theorem pyDictGet_insert_self (d : List (String × PyV)) (k : String) (v : PyV) :
    pyDictGet (pyDictInsert d k v) k = some v := by
  unfold pyDictInsert
  by_cases ha : d.any (fun p => p.1 = k)
  · rw [if_pos ha]
    unfold pyDictGet
    rw [find?_map_replace, if_pos ha]
    rfl
  · rw [if_neg ha]
    unfold pyDictGet
    rw [List.find?_append]
    have hd : d.find? (fun p => p.1 = k) = none := by
      have := pyDictGet_eq_none_of_not_any ha
      unfold pyDictGet at this
      cases hf : d.find? (fun p => p.1 = k) with
      | none => rfl
      | some q => rw [hf] at this; cases this
    rw [hd]
    simp

theorem pyDictGet_insert_other (d : List (String × PyV)) {k k' : String} (v : PyV)
    (hk : k' ≠ k) :
    pyDictGet (pyDictInsert d k v) k' = pyDictGet d k' := by
  unfold pyDictInsert
  by_cases ha : d.any (fun p => p.1 = k)
  · rw [if_pos ha]
    unfold pyDictGet
    rw [find?_map_replace_other v hk]
  · rw [if_neg ha]
    unfold pyDictGet
    rw [List.find?_append]
    have h2 : [(k, v)].find? (fun p => p.1 = k') = none := by
      have : ¬ (k = k') := fun h => hk h.symm
      simp [this]
    rw [h2]
    cases d.find? (fun p => p.1 = k') <;> rfl

theorem pyDictGet_eq_none_of_not_mem {d : List (String × PyV)} {k : String}
    (h : k ∉ d.map Prod.fst) : pyDictGet d k = none := by
  apply pyDictGet_eq_none_of_not_any
  simp only [List.any_eq_true, decide_eq_true_eq]
  rintro ⟨x, hx, hxk⟩
  exact h (List.mem_map.mpr ⟨x, hx, hxk⟩)

/-- Lookup in `{**a, **b}` when `b` is a genuine dict (no repeated keys):
a key of `b` gets `b`'s value, any other key falls through to `a`. -/
theorem pyDictGet_update (k : String) :
    ∀ (b a : List (String × PyV)), (b.map Prod.fst).Nodup →
      pyDictGet (pyDictUpdate a b) k =
        match pyDictGet b k with
        | some v => some v
        | none => pyDictGet a k := by
  intro b
  induction b with
  | nil => intro a _; simp [pyDictUpdate, pyDictGet]
  | cons p bs ih =>
    intro a hnd
    obtain ⟨k', v⟩ := p
    simp only [List.map_cons, List.nodup_cons] at hnd
    obtain ⟨hk', hnd⟩ := hnd
    have hstep : pyDictUpdate a ((k', v) :: bs) = pyDictUpdate (pyDictInsert a k' v) bs := rfl
    rw [hstep, ih _ hnd]
    by_cases hkk : k = k'
    · subst hkk
      have hbs : pyDictGet bs k = none := by
        apply pyDictGet_eq_none_of_not_mem
        simpa using hk'
      rw [hbs]
      have hhead : pyDictGet ((k, v) :: bs) k = some v := by
        simp [pyDictGet]
      rw [hhead, pyDictGet_insert_self]
    · have hhead : pyDictGet ((k', v) :: bs) k = pyDictGet bs k := by
        unfold pyDictGet
        rw [List.find?_cons_of_neg _ (by simpa using fun h => hkk h.symm)]
      rw [hhead, pyDictGet_insert_other _ _ hkk]

theorem infix_append_right {α : Type _} {a P : List α} (h : a <:+: P) (S : List α) :
    a <:+: P ++ S := by
  obtain ⟨s, t, rfl⟩ := h
  exact ⟨s, t ++ S, by simp⟩

theorem procBody_ok_shape {f : PFile} {extraction : Except String (List Char)}
    {metadata : Option (List (String × PyV))} {cs ov : Int} {fuel : Nat}
    {res : ProcResult}
    (h : procBody f extraction metadata cs ov fuel = some (.ok res)) :
    res.success = true ∧ res.error = none ∧
      res.metadata = pyDictUpdate (file_metadata f res.text res.chunks)
        (metadata.getD []) := by
  unfold procBody at h
  split at h
  · exact absurd h (by simp)
  · split at h
    · exact absurd h (by simp)
    · split at h
      · exact absurd h (by simp)
      · split at h
        · exact absurd h (by simp)
        · split at h
          · exact absurd h (by simp)
          · exact absurd h (by simp)
          · have hres := h
            simp only [Option.some.injEq, Except.ok.injEq] at hres
            subst hres
            exact ⟨rfl, rfl, rfl⟩

/-- C5: `process_document` never propagates an exception: whenever it
returns, either the try-block succeeded and the record has
`success = true` and no error, or the try-block raised some message and the
returned record is exactly the failure record built from it —
`success = false` with the message in `error`. -/
theorem process_document_never_raises (f : PFile)
    (extraction : Except String (List Char))
    (metadata : Option (List (String × PyV))) (cs ov : Int) (fuel : Nat)
    (r : ProcResult)
    (h : process_document f extraction metadata cs ov fuel = some r) :
    (procBody f extraction metadata cs ov fuel = some (.ok r) ∧
      r.success = true ∧ r.error = none) ∨
    (∃ msg, procBody f extraction metadata cs ov fuel = some (.error msg) ∧
      r = failureRecord metadata msg ∧ r.success = false ∧ r.error = some msg) := by
  unfold process_document at h
  cases hb : procBody f extraction metadata cs ov fuel with
  | none => rw [hb] at h; cases h
  | some x =>
    rw [hb] at h
    simp only [Option.map_some'] at h
    cases x with
    | ok res =>
      left
      have hr : res = r := by simpa using h
      subst hr
      obtain ⟨h1, h2, -⟩ := procBody_ok_shape hb
      exact ⟨rfl, h1, h2⟩
    | error msg =>
      right
      have hr : failureRecord metadata msg = r := by simpa using h
      subst hr
      exact ⟨msg, rfl, rfl, rfl, rfl⟩

/-- Sample successful input: an existing `.txt` file whose extraction
yields `"hi there."`, with one caller metadata key `title`. -/
def okFile : PFile :=
  { present := true, path := "doc.txt", name := "doc.txt", suffix := ".txt",
    size := 5, ctime := "t" }

def okExtraction : Except String (List Char) := .ok "hi there.".toList

def okMeta : Option (List (String × PyV)) := some [("title", .s "T")]

/-- The record `process_document` produces on the sample successful input. -/
def okResult : ProcResult :=
  { text := "hi there.".toList
    chunks := ["hi there.".toList]
    metadata :=
      [("file_name", .s "doc.txt"), ("file_size", .n 5), ("file_type", .s "txt"),
       ("word_count", .n 2), ("chunk_count", .n 1), ("processed_at", .s "t"),
       ("title", .s "T")]
    success := true
    error := none }

/-- Witness for C5 at the sample successful input. -/
theorem process_document_never_raises_witness :
    (procBody okFile okExtraction okMeta 1000 200 5 = some (.ok okResult) ∧
      okResult.success = true ∧ okResult.error = none) ∨
    (∃ msg, procBody okFile okExtraction okMeta 1000 200 5 = some (.error msg) ∧
      okResult = failureRecord okMeta msg ∧ okResult.success = false ∧
      okResult.error = some msg) :=
  process_document_never_raises okFile okExtraction okMeta 1000 200 5 okResult
    (by decide)

/-- C6: on a successful run the result metadata is the file-derived facts
with the caller-supplied metadata layered on top: a key the caller supplied
has the caller's value, and a key the caller did not supply has its
file-derived value.  (Caller metadata is a Python dict, hence its keys are
distinct.) -/
theorem process_document_metadata_overlay (f : PFile)
    (extraction : Except String (List Char))
    (metadata : Option (List (String × PyV))) (cs ov : Int) (fuel : Nat)
    (r : ProcResult)
    (h : process_document f extraction metadata cs ov fuel = some r)
    (hs : r.success = true)
    (hnd : ((metadata.getD []).map Prod.fst).Nodup) :
    ∀ k : String,
      (∀ v, pyDictGet (metadata.getD []) k = some v →
        pyDictGet r.metadata k = some v) ∧
      (pyDictGet (metadata.getD []) k = none →
        pyDictGet r.metadata k =
          pyDictGet (file_metadata f r.text r.chunks) k) := by
  rcases process_document_never_raises f extraction metadata cs ov fuel r h with
    ⟨hb, -, -⟩ | ⟨msg, -, hr, hfalse, -⟩
  · obtain ⟨-, -, hm⟩ := procBody_ok_shape hb
    intro k
    rw [hm, pyDictGet_update k _ _ hnd]
    constructor
    · intro v hv
      rw [hv]
    · intro hv
      rw [hv]
  · rw [hfalse] at hs
    cases hs

/-- Witness for C6 at the sample successful input: the caller-supplied
`title` wins, and the file-derived `file_size` is kept. -/
theorem process_document_metadata_overlay_witness :
    pyDictGet okResult.metadata "title" = some (.s "T") ∧
      pyDictGet okResult.metadata "file_size" =
        pyDictGet (file_metadata okFile okResult.text okResult.chunks) "file_size" := by
  have h := process_document_metadata_overlay okFile okExtraction okMeta 1000 200 5
    okResult (by decide) (by decide) (by decide)
  exact ⟨(h "title").1 (.s "T") (by decide), (h "file_size").2 (by decide)⟩

/-- C10: on a failed run the returned record has empty text, no chunks, and
exactly the caller-supplied metadata (the empty dict when none was given) —
no file-derived facts are added. -/
theorem process_document_failure_shape (f : PFile)
    (extraction : Except String (List Char))
    (metadata : Option (List (String × PyV))) (cs ov : Int) (fuel : Nat)
    (r : ProcResult)
    (h : process_document f extraction metadata cs ov fuel = some r)
    (hf : r.success = false) :
    r.text = [] ∧ r.chunks = [] ∧ r.metadata = metadata.getD [] := by
  rcases process_document_never_raises f extraction metadata cs ov fuel r h with
    ⟨-, htrue, -⟩ | ⟨msg, -, hr, -, -⟩
  · rw [htrue] at hf; cases hf
  · subst hr
    exact ⟨rfl, rfl, rfl⟩

/-- A `.csv` file that does not exist: `process_document` fails on the
existence check, before the extension is ever looked at. -/
def missingCsv : PFile :=
  { present := false, path := "data.csv", name := "data.csv", suffix := ".csv",
    size := 0, ctime := "t" }

/-- Witness for C10 at the missing-`.csv` input. -/
theorem process_document_failure_shape_witness :
    (failureRecord none "Arquivo não encontrado: data.csv").text = [] ∧
      (failureRecord none "Arquivo não encontrado: data.csv").chunks = [] ∧
      (failureRecord none "Arquivo não encontrado: data.csv").metadata =
        (none : Option (List (String × PyV))).getD [] :=
  process_document_failure_shape missingCsv (.ok "x".toList) none 1000 200 5
    (failureRecord none "Arquivo não encontrado: data.csv") (by decide) (by decide)

/-- C8 counterexample: on a `.csv` path whose file does not exist,
`process_document` fails with the not-found message, which does not contain
`"não suportado"` — the existence check precedes the extension check. -/
theorem process_document_csv_not_found :
    process_document missingCsv (.ok "x".toList) none 1000 200 5 =
      some (failureRecord none "Arquivo não encontrado: data.csv") ∧
    ¬ ("não suportado".toList <:+: "Arquivo não encontrado: data.csv".toList) := by
  constructor
  · decide
  · decide

/-- C8 amended: for every *existing* file whose extension matches no
extractor (for instance `.csv`), `process_document` returns a failure
record whose error message contains `"não suportado"`, with no extracted
text and no chunks. -/
theorem process_document_unsupported_extension (f : PFile)
    (extraction : Except String (List Char))
    (metadata : Option (List (String × PyV))) (cs ov : Int) (fuel : Nat)
    (hp : f.present = true) (hn : get_processor_for_file f.suffix = none) :
    process_document f extraction metadata cs ov fuel =
      some (failureRecord metadata ("Tipo de arquivo não suportado: " ++ f.suffix)) ∧
    ("não suportado".toList <:+:
      ("Tipo de arquivo não suportado: " ++ f.suffix).toList) ∧
    (failureRecord metadata ("Tipo de arquivo não suportado: " ++ f.suffix)).success
      = false ∧
    (failureRecord metadata ("Tipo de arquivo não suportado: " ++ f.suffix)).text
      = [] ∧
    (failureRecord metadata ("Tipo de arquivo não suportado: " ++ f.suffix)).chunks
      = [] := by
  refine ⟨?_, ?_, rfl, rfl, rfl⟩
  · unfold process_document procBody
    rw [if_neg (by simp [hp]), hn]
    rfl
  · have h1 : "não suportado".toList <:+: "Tipo de arquivo não suportado: ".toList := by
      decide
    have h2 : ("Tipo de arquivo não suportado: " ++ f.suffix).toList =
        "Tipo de arquivo não suportado: ".toList ++ f.suffix.toList := rfl
    rw [h2]
    exact infix_append_right h1 _

/-- An existing `.csv` file. -/
def presentCsv : PFile :=
  { present := true, path := "data.csv", name := "data.csv", suffix := ".csv",
    size := 9, ctime := "t" }

/-- Witness for C8 (amended) at an existing `.csv` file. -/
theorem process_document_unsupported_extension_witness :
    process_document presentCsv (.ok "x".toList) none 1000 200 5 =
      some (failureRecord none ("Tipo de arquivo não suportado: " ++ presentCsv.suffix)) ∧
    ("não suportado".toList <:+:
      ("Tipo de arquivo não suportado: " ++ presentCsv.suffix).toList) ∧
    (failureRecord none ("Tipo de arquivo não suportado: " ++ presentCsv.suffix)).success
      = false ∧
    (failureRecord none ("Tipo de arquivo não suportado: " ++ presentCsv.suffix)).text
      = [] ∧
    (failureRecord none ("Tipo de arquivo não suportado: " ++ presentCsv.suffix)).chunks
      = [] :=
  process_document_unsupported_extension presentCsv (.ok "x".toList) none 1000 200 5
    (by decide) (by decide)

/-! ## The context assembler (`AIService._get_relevant_context`) -/

/-- A similarity result as consumed by `_get_relevant_context`: its
`content` and the `title` of its metadata dict (`metadata.get('title')`,
`none` when absent; Python truthiness makes an empty title count as
absent too, which the model checks explicitly). -/
structure SimDoc where
  content : List Char
  title : Option (List Char)
deriving DecidableEq

/-- `"\\n".join(parts)` of line 268 — the source joins with the
two-character literal backslash-`n` (the same escaping slip as in
`chunk_text`). -/
def joinSep : List (List Char) → List Char
  | [] => []
  | [p] => p
  | p :: ps => p ++ ('\\' :: 'n' :: joinSep ps)

/-- One iteration of `for i, doc in enumerate(similar_docs[:3], 1)`
(lines 257-267): the three parts a document contributes — the
`Documento N[ - title]:` header, the content truncated to 500 characters,
and the `---` separator. -/
def docParts (i : Nat) (doc : SimDoc) : List (List Char) :=
  let content := doc.content.take 500
  let info := "Documento ".toList ++ (Nat.repr i).toList ++
    (match doc.title with
     | some t => if t = [] then [] else " - ".toList ++ t
     | none => [])
  [info ++ [':'], content, "---".toList]

/-- The loop of lines 257-267, numbering documents from 1. -/
def buildParts : Nat → List SimDoc → List (List Char)
  | _, [] => []
  | i, doc :: rest => docParts i doc ++ buildParts (i + 1) rest

/-- `AIService._get_relevant_context` (lines 240-273), as a function of the
outcome of the vector-store retrieval: `""` on a retrieval failure (the
`except` of line 271) and on an empty result list, otherwise the labeled
block built from the top 3 results. -/
def get_relevant_context (search : Except String (List SimDoc)) : List Char :=
  match search with
  | .error _ => []
  | .ok docs =>
    if docs = [] then []
    else joinSep ("CONTEXTO DA BASE DE CONHECIMENTO:".toList :: buildParts 1 (docs.take 3))

theorem buildParts_truncate (i : Nat) (l : List SimDoc) :
    buildParts i (l.map (fun d => { d with content := d.content.take 500 })) =
      buildParts i l := by
  induction l generalizing i with
  | nil => rfl
  | cons d rest ih =>
    simp only [List.map_cons, buildParts, ih]
    have h5 : (d.content.take 500).take 500 = d.content.take 500 := by
      rw [List.take_take, min_self]
    simp [docParts, h5]

/-- C9: the context assembler (i) returns the empty string on a retrieval
failure, (ii) returns the empty string when the search yields no results,
(iii) uses at most the top 3 results (its output only depends on them),
(iv) truncates each result's content to 500 characters (truncating contents
beforehand changes nothing), and (v) on any non-empty result list emits the
labeled block headed `CONTEXTO DA BASE DE CONHECIMENTO:`. -/
theorem get_relevant_context_contract :
    (∀ e, get_relevant_context (.error e) = []) ∧
    (get_relevant_context (.ok []) = []) ∧
    (∀ docs, get_relevant_context (.ok docs) =
      get_relevant_context (.ok (docs.take 3))) ∧
    (∀ docs, get_relevant_context
        (.ok (docs.map (fun d => { d with content := d.content.take 500 }))) =
      get_relevant_context (.ok docs)) ∧
    (∀ docs, docs ≠ [] → ∃ rest, get_relevant_context (.ok docs) =
      "CONTEXTO DA BASE DE CONHECIMENTO:".toList ++ rest) := by
  refine ⟨fun e => rfl, rfl, fun docs => ?_, fun docs => ?_, fun docs hne => ?_⟩
  · by_cases h : docs = []
    · subst h; rfl
    · have h3 : ¬ (docs.take 3 = []) := by
        simpa [List.take_eq_nil_iff] using h
      simp only [get_relevant_context, if_neg h, if_neg h3, List.take_take, min_self]
  · by_cases h : docs = []
    · subst h; rfl
    · have hm : ¬ (docs.map (fun d => { d with content := d.content.take 500 }) = []) := by
        simpa using h
      simp only [get_relevant_context, if_neg h, if_neg hm, ← List.map_take,
        buildParts_truncate]
  · rw [get_relevant_context, if_neg hne]
    cases hb : buildParts 1 (docs.take 3) with
    | nil => exact ⟨[], rfl⟩
    | cons p ps => exact ⟨'\\' :: 'n' :: joinSep (p :: ps), rfl⟩

/-- Witness for C9 at a failed retrieval and at the one-document list
`[{content := "hello", title := none}]`. -/
theorem get_relevant_context_contract_witness :
    get_relevant_context (.error "boom") = [] ∧
    get_relevant_context (.ok [⟨"hello".toList, none⟩]) =
      get_relevant_context (.ok ([⟨"hello".toList, none⟩].take 3)) ∧
    (∃ rest, get_relevant_context (.ok [⟨"hello".toList, none⟩]) =
      "CONTEXTO DA BASE DE CONHECIMENTO:".toList ++ rest) :=
  ⟨get_relevant_context_contract.1 "boom",
    get_relevant_context_contract.2.2.1 [⟨"hello".toList, none⟩],
    get_relevant_context_contract.2.2.2.2 [⟨"hello".toList, none⟩] (by decide)⟩

/-! ## The vector index (`VectorStoreService`)

The ChromaDB client is abstracted as a map from collection names to the
records inserted so far, in insertion order; `collection.query` returns up
to `n_results` records of that collection (the similarity ranking itself is
the external library's concern — only which collection the records come
from matters for the isolation claims). -/

/-- `VectorStoreService.get_collection_name` (lines 63-65):
`f"persona_{persona_id}_knowledge"`. -/
def get_collection_name (persona_id : Nat) : String :=
  "persona_" ++ Nat.repr persona_id ++ "_knowledge"

/-- One embedding record as inserted by `add_document`: its chroma id
`f"{document_id}_chunk_{i}"`, the chunk text, and the chunk metadata dict
(which carries `chunk_index`, `document_id` and `chunk_id`). -/
structure ChunkRec where
  rid : String
  content : List Char
  meta : List (String × PyV)
deriving DecidableEq

/-- The per-chunk ids and metadata built by the loop of lines 115-125. -/
def chunkRecords (document_id : String) (metadata : List (String × PyV)) :
    Nat → List (List Char) → List ChunkRec
  | _, [] => []
  | i, c :: rest =>
    let cid := document_id ++ "_chunk_" ++ Nat.repr i
    { rid := cid
      content := c
      meta := pyDictUpdate metadata
        [("chunk_index", .n (i : Int)), ("document_id", .s document_id),
         ("chunk_id", .s cid)] } ::
      chunkRecords document_id metadata (i + 1) rest

/-- The abstract ChromaDB state: each collection's records in insertion
order (a collection never written to is empty — `get_or_create_collection`
creates collections lazily). -/
def Store := String → List ChunkRec

/-- `VectorStoreService.add_document` (lines 88-139): builds per-chunk ids
and metadata and inserts into the owning persona's collection; returns
`True`. -/
def add_document (s : Store) (persona_id : Nat) (document_id : String)
    (text_chunks : List (List Char)) (metadata : List (String × PyV)) :
    Store × Bool :=
  let name := get_collection_name persona_id
  (fun n => if n = name
    then s n ++ chunkRecords document_id metadata 0 text_chunks
    else s n,
   true)

/-- A formatted similarity result (lines 176-182). -/
structure SimilarityResult where
  content : List Char
  metadata : List (String × PyV)
  id : String
deriving DecidableEq

/-- `VectorStoreService.search_similar_content` (lines 141-189): query the
persona's collection (`collection.query` abstracted as up to `n_results`
records of that collection) and format the results. -/
def search_similar_content (s : Store) (persona_id : Nat) (n_results : Nat) :
    List SimilarityResult :=
  ((s (get_collection_name persona_id)).take n_results).map
    (fun r => { content := r.content, metadata := r.meta, id := r.rid })

/-- `VectorStoreService.delete_document` (lines 191-221): removes from the
persona's collection every record whose metadata `document_id` matches;
returns `False` when none matched. -/
def delete_document (s : Store) (persona_id : Nat) (document_id : String) :
    Store × Bool :=
  let name := get_collection_name persona_id
  let hits := (s name).filter
    (fun r => pyDictGet r.meta "document_id" = some (.s document_id))
  if hits = [] then (s, false)
  else
    (fun n => if n = name
      then (s n).filter
        (fun r => ¬ pyDictGet r.meta "document_id" = some (.s document_id))
      else s n,
     true)

/-- `VectorStoreService.clear_persona_collection` (lines 259-284): drops
the persona's collection. -/
def clear_persona_collection (s : Store) (persona_id : Nat) : Store × Bool :=
  (fun n => if n = get_collection_name persona_id then [] else s n, true)

/-! Injectivity of `get_collection_name`, via a decimal round-trip for
`Nat.repr`. -/

/-- Decimal digits of `n`, most significant first. -/
def decDigits (n : Nat) : List Char :=
  if n < 10 then [Nat.digitChar n]
  else decDigits (n / 10) ++ [Nat.digitChar (n % 10)]
decreasing_by exact Nat.div_lt_self (by omega) (by omega)

theorem toDigitsCore_eq_decDigits :
    ∀ (fuel n : Nat) (ds : List Char), n < fuel →
      Nat.toDigitsCore 10 fuel n ds = decDigits n ++ ds := by
  intro fuel
  induction fuel with
  | zero => intro n ds h; omega
  | succ f ih =>
    intro n ds h
    rw [Nat.toDigitsCore]
    by_cases h10 : n / 10 = 0
    · have hn : n < 10 := by omega
      rw [if_pos h10, decDigits, if_pos hn, Nat.mod_eq_of_lt hn]
      rfl
    · have hn : ¬ n < 10 := by omega
      have hlt : n / 10 < f := by
        have := Nat.div_lt_self (by omega : 0 < n) (by omega : 1 < 10)
        omega
      rw [if_neg h10, ih (n / 10) _ hlt]
      conv_rhs => rw [decDigits, if_neg hn]
      rw [List.append_assoc]
      rfl

theorem repr_eq_decDigits (n : Nat) : Nat.repr n = (decDigits n).asString := by
  rw [Nat.repr, Nat.toDigits, toDigitsCore_eq_decDigits (n + 1) n [] (by omega),
    List.append_nil]

/-- The value of a decimal digit character. -/
def digitVal (c : Char) : Nat := c.toNat - 48

/-- The number a digit string denotes. -/
def decVal (l : List Char) : Nat := l.foldl (fun a c => 10 * a + digitVal c) 0

theorem digitVal_digitChar (d : Nat) (h : d < 10) :
    digitVal (Nat.digitChar d) = d := by
  interval_cases d <;> rfl

theorem decVal_append_digit (l : List Char) (c : Char) :
    decVal (l ++ [c]) = 10 * decVal l + digitVal c := by
  unfold decVal
  rw [List.foldl_append]
  rfl

theorem decVal_decDigits : ∀ n : Nat, decVal (decDigits n) = n := by
  intro n
  induction n using Nat.strong_induction_on with
  | _ n ih =>
    rw [decDigits]
    by_cases h : n < 10
    · rw [if_pos h]
      show 10 * 0 + digitVal (Nat.digitChar n) = n
      rw [digitVal_digitChar n h]
      omega
    · rw [if_neg h, decVal_append_digit,
        ih (n / 10) (Nat.div_lt_self (by omega) (by omega)),
        digitVal_digitChar _ (Nat.mod_lt n (by omega))]
      omega

theorem repr_injective {m n : Nat} (h : Nat.repr m = Nat.repr n) : m = n := by
  rw [repr_eq_decDigits, repr_eq_decDigits] at h
  have hd : decDigits m = decDigits n := by
    have := congrArg String.toList h
    simpa [List.toList_asString] using this
  have := congrArg decVal hd
  rwa [decVal_decDigits, decVal_decDigits] at this

theorem get_collection_name_injective {p q : Nat}
    (h : get_collection_name p = get_collection_name q) : p = q := by
  unfold get_collection_name at h
  have htl : ∀ a b : String, (a ++ b).toList = a.toList ++ b.toList :=
    fun _ _ => rfl
  have h' := congrArg String.toList h
  rw [htl, htl, htl, htl, List.append_assoc, List.append_assoc] at h'
  have h2 := List.append_cancel_left h'
  have h3 := List.append_cancel_right h2
  exact repr_injective (String.toList_inj.mp h3)

/-- C7: operations scoped to persona `q` never touch persona `p`'s data
(`p ≠ q`): `add_document`, `delete_document` and
`clear_persona_collection` under `q` leave `p`'s collection unchanged, and
a search scoped to `p` returns the same results before and after an
insertion under `q` — records added under `q` are never returned to `p`. -/
theorem persona_isolation (p q : Nat) (hpq : p ≠ q) (s : Store)
    (document_id : String) (text_chunks : List (List Char))
    (metadata : List (String × PyV)) (doc2 : String) (n_results : Nat) :
    ((add_document s q document_id text_chunks metadata).1
        (get_collection_name p) = s (get_collection_name p)) ∧
    ((delete_document s q doc2).1 (get_collection_name p)
        = s (get_collection_name p)) ∧
    ((clear_persona_collection s q).1 (get_collection_name p)
        = s (get_collection_name p)) ∧
    (search_similar_content
        (add_document s q document_id text_chunks metadata).1 p n_results
      = search_similar_content s p n_results) := by
  have hname : get_collection_name p ≠ get_collection_name q :=
    fun h => hpq (get_collection_name_injective h)
  have hadd : (add_document s q document_id text_chunks metadata).1
      (get_collection_name p) = s (get_collection_name p) := by
    unfold add_document
    simp only [if_neg hname]
  refine ⟨hadd, ?_, ?_, ?_⟩
  · unfold delete_document
    by_cases hh : (s (get_collection_name q)).filter
        (fun r => pyDictGet r.meta "document_id" = some (.s doc2)) = []
    · rw [if_pos hh]
    · rw [if_neg hh]
      simp only [if_neg hname]
  · unfold clear_persona_collection
    simp only [if_neg hname]
  · unfold search_similar_content
    rw [hadd]

/-- Witness for C7 at personas `1 ≠ 2`, the empty store, one inserted
chunk. -/
theorem persona_isolation_witness :
    ((add_document (fun _ => []) 2 "d" [['x']] []).1 (get_collection_name 1)
        = (fun _ => ([] : List ChunkRec)) (get_collection_name 1)) ∧
    ((delete_document (fun _ => []) 2 "d").1 (get_collection_name 1)
        = (fun _ => ([] : List ChunkRec)) (get_collection_name 1)) ∧
    ((clear_persona_collection (fun _ => []) 2).1 (get_collection_name 1)
        = (fun _ => ([] : List ChunkRec)) (get_collection_name 1)) ∧
    (search_similar_content (add_document (fun _ => []) 2 "d" [['x']] []).1 1 5
      = search_similar_content (fun _ => []) 1 5) :=
  persona_isolation 1 2 (by decide) (fun _ => []) "d" [['x']] [] "d" 5

end TCC
